import Mathlib

/-!
Verification of the Freshservice → Azure Blob extraction script (`main.py`).

The script is a single linear pipeline: read a watermark from a Snowflake
TICKETS table, page through three Freshservice REST endpoints, normalise the
JSON pages into tables, rename ticket columns, and upload three CSV blobs.

This file gives a shallow embedding of that script.  Pure text manipulation
(`str.replace`, `str.upper`, the `re.search('<(.*?)>', …)` link extraction)
is translated directly from the Python source.  The HTTP world is modelled as
a finite script of outcomes, one per issued request; vendor SDK behaviour
(`pandas`, Snowflake and the `requests` exception hierarchy) is modelled at
the level the source relies on and documented at each definition.
-/

namespace FS

/-- The listwise `a in b` test used implicitly below: is `pat` a prefix of `t`?
Mirrors a character-by-character prefix comparison. -/
def isPrefixList : List Char → List Char → Bool
  | [], _ => true
  | _ :: _, [] => false
  | a :: as, b :: bs => a = b && isPrefixList as bs

/-- Embedding of the Python substring test `pat in s` (`str.__contains__`):
true when `pat` occurs (contiguously) anywhere in `s`. -/
def containsSub (pat : List Char) : List Char → Bool
  | [] => isPrefixList pat []
  | b :: bs => isPrefixList pat (b :: bs) || containsSub pat bs

/-- The literal `"CUSTOM_FIELDS."` from `main.py` line 170. -/
def patCF : List Char := "CUSTOM_FIELDS.".data

/-- The literal `"SQL compilation error:"` from `main.py` line 192. -/
def sqlErrPat : List Char := "SQL compilation error:".data

/-- Worker for `removeCF`.  While `skip > 0` the characters of a
just-matched occurrence are being consumed; at `skip = 0` the scanner checks
for a fresh occurrence of `patCF`, exactly like CPython's left-to-right
non-overlapping scan in `str.replace`. -/
def removeGo : Nat → List Char → List Char
  | _ + 1, [] => []
  | k + 1, _ :: cs => removeGo k cs
  | 0, [] => []
  | 0, c :: cs =>
    if isPrefixList patCF (c :: cs) then removeGo 13 cs
    else c :: removeGo 0 cs

/-- Embedding of `col.replace("CUSTOM_FIELDS.", "")` (`main.py` line 170):
delete every left-to-right non-overlapping occurrence of `CUSTOM_FIELDS.`.
(`patCF` has 14 characters: after a match one is consumed by the pattern
head and 13 more are skipped.) -/
def removeCF (l : List Char) : List Char := removeGo 0 l

/-- String-level version of `removeCF`. -/
def strRemoveCF (s : String) : String := String.mk (removeCF s.data)

/-- Embedding of `str.upper` as applied by
`df_data.columns.str.upper()` (`main.py` line 134).  Column names are ASCII
key paths, for which CPython's `str.upper` is exactly the basic-latin
mapping of core `Char.toUpper` applied characterwise. -/
def strUpper (s : String) : String := String.mk (s.data.map Char.toUpper)

/-- Embedding of `timestamp_str.replace(" ", "T")` (`main.py` line 82):
a one-character pattern with a one-character replacement is a character map. -/
def spaceToT : List Char → List Char
  | [] => []
  | c :: cs => (if c = ' ' then 'T' else c) :: spaceToT cs

/-- Modelled external Snowflake/pandas behaviour for
`session.sql("SELECT IFNULL(MAX(COALESCE(UPDATED_AT, CREATED_AT)), '2001-04-16T00:00:00Z') AS X FROM TICKETS").toPandas()['X'][0]`
followed by `str(...)` (`main.py` lines 68-79).  `UPDATED_AT`/`CREATED_AT`
are TIMESTAMP columns, so Snowflake coerces the VARCHAR default of `IFNULL`
to TIMESTAMP_NTZ; `toPandas`/`str` render any such scalar as
`YYYY-MM-DD HH:MM:SS`.  The input is the aggregate as an optional rendered
scalar: `none` models the empty-table case, in which the SQL-side default
surfaces as the rendered timestamp `2001-04-16 00:00:00`. -/
def snowflakeScalar (agg : Option String) : String :=
  match agg with
  | some ts => ts
  | none => "2001-04-16 00:00:00"

/-- Embedding of `get_updated_timestamp` (`main.py` lines 55-84): fetch the
aggregate scalar, replace `" "` by `"T"`, append `"Z"`. -/
def get_updated_timestamp (agg : Option String) : String :=
  String.mk (spaceToT (snowflakeScalar agg).data ++ ['Z'])

/-- A scalar of the form `YYYY-MM-DD HH:MM:SS` (the rendering of a
TIMESTAMP_NTZ value): four digits, `-`, two digits, `-`, two digits, a
space, then three two-digit groups separated by `:`. -/
def isDateTimeForm (s : String) : Bool :=
  match s.data with
  | [y1, y2, y3, y4, h1, m1, m2, h2, d1, d2, sp, t1, t2, c1, n1, n2, c2, s1, s2] =>
    y1.isDigit && y2.isDigit && y3.isDigit && y4.isDigit &&
    h1 = '-' && m1.isDigit && m2.isDigit && h2 = '-' &&
    d1.isDigit && d2.isDigit && sp = ' ' &&
    t1.isDigit && t2.isDigit && c1 = ':' && n1.isDigit && n2.isDigit &&
    c2 = ':' && s1.isDigit && s2.isDigit
  | _ => false

/-- Spec-side formulation of the output format (for the claim about
non-empty watermarks): the input with the single space at position 10
replaced by `T`, and `Z` appended. -/
def specISO (s : String) : String :=
  String.mk (s.data.take 10 ++ 'T' :: s.data.drop 11 ++ ['Z'])

/-- A table cell; `none` models a pandas `NaN` fill value. -/
abbrev Cell := Option String

/-- Model of a `pandas.DataFrame` as used by the script: an ordered list of
column names plus positional rows. -/
structure DataFrame where
  cols : List String
  rows : List (List Cell)
deriving DecidableEq, Repr

/-- Position of the first occurrence of a column name, if any. -/
def idxOf (c : String) : List String → Option Nat
  | [] => none
  | x :: xs => if x = c then some 0 else (idxOf c xs).map (· + 1)

/-- Align one positional row of a frame with columns `dfCols` to the wider
column list `allCols`, filling absent columns with `NaN` — the row-alignment
`pd.concat` performs when frames disagree on columns. -/
def reindexRow (allCols dfCols : List String) (row : List Cell) : List Cell :=
  allCols.map fun c =>
    match idxOf c dfCols with
    | some i => row.getD i none
    | none => none

/-- First-occurrence deduplication (order-preserving), with an accumulator of
names already seen. -/
def uniqueAux (seen : List String) : List String → List String
  | [] => []
  | c :: cs => if seen.contains c then uniqueAux seen cs
               else c :: uniqueAux (c :: seen) cs

/-- Embedding of `pd.concat(all_data, ignore_index=True) if all_data else pd.DataFrame()`
(`main.py` line 131): the united column list keeps first-appearance order and
every row of every frame is kept, aligned to the united columns. -/
def concatDfs (dfs : List DataFrame) : DataFrame :=
  { cols := uniqueAux [] (dfs.map DataFrame.cols).flatten
    rows := (dfs.map fun df => df.rows.map (reindexRow (uniqueAux [] (dfs.map DataFrame.cols).flatten) df.cols)).flatten }

/-- Embedding of `df_data.columns = df_data.columns.str.upper()`
(`main.py` line 134): rename the columns, leave the rows untouched. -/
def uppercaseCols (df : DataFrame) : DataFrame :=
  { cols := df.cols.map strUpper, rows := df.rows }

/-- Outcome of one `requests.get` call, as scripted by the test world:
either a response (with its status code, the frame
`pd.json_normalize(response.json(), record_path=record_path)` would yield,
and the optional `Link` header), or a connection-level failure in which
`requests.get` raises before returning a response object. -/
inductive Outcome where
  | response (status : Nat) (df : DataFrame) (link : Option String)
  | connError
deriving DecidableEq, Repr

/-- A Python error escaping `fetch_data_from_endpoint` uncaught:
`nameError` models `time.sleep(60)` on line 124 referencing the name `time`,
which `main.py` never imports; `unboundLocal` models line 122 reading
`response.status_code` when no `requests.get` call has yet returned, so the
local `response` is unbound. -/
inductive PyError where
  | nameError
  | unboundLocal
deriving DecidableEq, Repr

/-- Scan for the closing `>` of `re.search('<(.*?)>', …)`: the characters
before the first `>`; `.` does not match a newline, so an intervening
newline aborts this candidate match. -/
def scanClose : List Char → Option (List Char)
  | [] => none
  | c :: cs =>
    if c = '>' then some []
    else if c = '\n' then none
    else (scanClose cs).map (c :: ·)

/-- Embedding of `re.search('<(.*?)>', link_header)` followed by
`match.group(1)` (`main.py` lines 118-119): the leftmost `<` that is closed
by a later `>` with no newline between yields the enclosed characters. -/
def firstAngle : List Char → Option (List Char)
  | [] => none
  | c :: cs =>
    if c = '<' then
      match scanClose cs with
      | some inner => some inner
      | none => firstAngle cs
    else firstAngle cs

/-- Next-URL selection from the optional `Link` header (`main.py` lines
117-119): absent header or no bracketed group means the loop ends. -/
def linkNext (header : Option String) : Option String :=
  match header with
  | none => none
  | some h => (firstAngle h.data).map String.mk

/-- Embedding of the `while url:` loop of `fetch_data_from_endpoint`
(`main.py` lines 107-128), driven by the scripted outcome of each request.

The loop condition `while url:` is Python truthiness: the loop exits both
when `url` is `None` (no `Link` match) and when it is the empty string —
which happens when the first bracketed group of a `Link` header is empty
(`<>` gives `match.group(1) == ""`).  In either case no further request is
issued and no script outcome is consumed.

State: the current `url`, the status of the last response bound to the
Python local `response` (`none` before any response exists), the collected
frames `all_data`, and — as observable instrumentation — the list of URLs
passed to `requests.get` so far.

Per iteration with a truthy URL: a response with status `< 400` passes
`raise_for_status`, its frame is appended and the next URL is read from the
`Link` header; a status `≥ 400` raises `requests.HTTPError`, and the handler
retries on 429 (crashing on the unimported `time`) or logs and breaks
otherwise; a connection-level failure reaches the same handler with
`response` still holding its previous value — or unbound, which crashes.
An exhausted script with a pending URL ends the run (no claim exercises
that case). -/
def fetchLoop : List Outcome → Option String → Option Nat → List DataFrame → List String →
    Except PyError (List String × List DataFrame)
  | _, none, _, acc, reqs => .ok (reqs, acc)
  | [], some _, _, acc, reqs => .ok (reqs, acc)
  | .response st df link :: rest, some u, _, acc, reqs =>
    if u = "" then .ok (reqs, acc)
    else if 400 ≤ st then
      if st = 429 then .error .nameError
      else .ok (reqs ++ [u], acc)
    else fetchLoop rest (linkNext link) (some st) (acc ++ [df]) (reqs ++ [u])
  | .connError :: _, some u, none, acc, reqs =>
    if u = "" then .ok (reqs, acc)
    else .error .unboundLocal
  | .connError :: _, some u, some st, acc, reqs =>
    if u = "" then .ok (reqs, acc)
    else if st = 429 then .error .nameError
    else .ok (reqs ++ [u], acc)

/-- Embedding of `fetch_data_from_endpoint` (`main.py` lines 86-138) from a
given start URL: run the pagination loop, concatenate the collected frames
(an empty frame when none), uppercase the column names.  The first component
of a successful result is the instrumented request trace; the second is the
frame the Python function returns. -/
def fetchRun (script : List Outcome) (startUrl : String) :
    Except PyError (List String × DataFrame) :=
  match fetchLoop script (some startUrl) none [] [] with
  | .error e => .error e
  | .ok (reqs, dfs) => .ok (reqs, uppercaseCols (concatDfs dfs))

/-- URL construction of `fetch_data_from_endpoint` (`main.py` line 102). -/
def endpointUrl (domain endpoint : String) : String :=
  "https://" ++ domain ++ ".freshservice.com/api/v2/" ++ endpoint

/-- The value `fetch_data_from_endpoint` itself returns (request trace
dropped).  The API key, password and headers only feed authentication inside
`requests.get` and do not influence control flow, so they are not part of
the model state. -/
def fetch_data_from_endpoint (script : List Outcome) (domain endpoint : String) :
    Except PyError DataFrame :=
  (fetchRun script (endpointUrl domain endpoint)).map Prod.snd

/-- Embedding of the dict comprehension
`{col: col.replace("CUSTOM_FIELDS.", "") for col in ticket_df.columns if "CUSTOM_FIELDS." in col}`
(`main.py` line 170). -/
def renameMap (cols : List String) : List (String × String) :=
  (cols.filter fun c => containsSub patCF c.data).map fun c => (c, strRemoveCF c)

/-- Embedding of how `ticket_df.rename(columns=rename_cols)` treats one
label (`main.py` line 171): labels present in the mapping are replaced,
all others are kept. -/
def applyRename (m : List (String × String)) (c : String) : String :=
  (List.lookup c m).getD c

/-- One application of the orchestrator's rename step to a column list:
build the mapping from the current columns, then rename each column. -/
def renameOnce (cols : List String) : List String :=
  cols.map (applyRename (renameMap cols))

/-- The rename step applied to a frame: columns change, rows do not. -/
def renameDf (df : DataFrame) : DataFrame :=
  { cols := renameOnce df.cols, rows := df.rows }

/-- Result of one run of `main` as seen by its `except` clause
(`main.py` lines 191-196). -/
inductive RunOutcome where
  | clean
  | soft (msg : String)
  | raised (msg : String)
deriving DecidableEq, Repr

/-- Embedding of the `except Exception as e:` handler of `main`
(`main.py` lines 191-196).  The input is the exception raised by the `try`
body, if any, as its rendered message `str(e)`: with no exception the run
ends cleanly; an exception whose message contains
`"SQL compilation error:"` is logged and swallowed (the run ends without
executing any statement after the raise point, uploads included); any other
exception is logged and re-raised, so the process terminates with the
runtime's nonzero failure status. -/
def mainExceptHandler (body : Option String) : RunOutcome :=
  match body with
  | none => .clean
  | some msg =>
    if containsSub sqlErrPat msg.data then .soft msg else .raised msg

/-- The blob path of each uploaded table (`main.py` lines 180-189). -/
def agentGroupsPath : String := "API_FRESHSERVICE/AGENTGROUPS.csv"

/-- Blob path of the tickets table. -/
def ticketsPath : String := "API_FRESHSERVICE/TICKETS.csv"

/-- Blob path of the ticket-fields table. -/
def ticketFieldsPath : String := "API_FRESHSERVICE/TICKET_FIELDS.csv"

/-- Embedding of the data flow of `main`'s `try` body (`main.py` lines
160-189): read the watermark, fetch tickets (filtered by the watermark),
strip the custom-fields prefix from the ticket columns, fetch ticket fields
and agent groups, and upload the three tables in the source's order —
agent groups, tickets, ticket fields.  The result is the list of
`(blob path, frame)` pairs passed to `upload_df_to_blob`; a `PyError`
escaping a fetch aborts the run before any upload. -/
def mainUploads (domain : String) (agg : Option String)
    (ticketScript fieldScript groupScript : List Outcome) :
    Except PyError (List (String × DataFrame)) :=
  let updated_since := get_updated_timestamp agg
  match fetch_data_from_endpoint ticketScript domain
      ("tickets?per_page=100&updated_since=" ++ updated_since) with
  | .error e => .error e
  | .ok ticket_df =>
    let ticket_df2 := renameDf ticket_df
    match fetch_data_from_endpoint fieldScript domain "ticket_form_fields?per_page=100" with
    | .error e => .error e
    | .ok ticket_fields_df =>
      match fetch_data_from_endpoint groupScript domain "groups?per_page=100" with
      | .error e => .error e
      | .ok agent_groups_df =>
        .ok [(agentGroupsPath, agent_groups_df),
             (ticketsPath, ticket_df2),
             (ticketFieldsPath, ticket_fields_df)]

/-- A URL that keeps pagination going when carried in a `Link` header:
it is non-empty (Python-truthy, so `while url:` continues) and contains no
`>` and no newline (so the angle-bracket extraction recovers it intact). -/
def goodUrl (u : String) : Bool :=
  !(u == "") && u.data.all fun ch => ch ≠ '>' && ch ≠ '\n'

/-- Scenario builder: a chain of pages, each given as its URL and the frame
its body normalises to.  Every page except the last answers with a `Link`
header naming the next page's URL in angle brackets; the last page carries
no `Link` header. -/
def chainScript : List (String × DataFrame) → List Outcome
  | [] => []
  | (_, df) :: rest =>
    Outcome.response 200 df
      (match rest with
       | [] => none
       | (u2, _) :: _ => some ("<" ++ u2 ++ ">")) :: chainScript rest

/-- The URL the first request of a chained scenario goes to. -/
def startOf (ps : List (String × DataFrame)) (failUrl : String) : String :=
  match ps with
  | [] => failUrl
  | (u, _) :: _ => u

/-- Scenario builder for column names: the segments interleaved with the
`CUSTOM_FIELDS.` pattern, so `sepJoin pat [a, b, c] = a ++ pat ++ b ++ pat ++ c`.
A name of this shape with pattern-free segments carries exactly
`segs.length - 1` occurrences of the pattern, at arbitrary positions. -/
def sepJoin (sep : List Char) : List (List Char) → List Char
  | [] => []
  | [s] => s
  | s :: s2 :: rest => s ++ sep ++ sepJoin sep (s2 :: rest)

/-- Concrete two-page scenario used as a witness input. -/
def twoPages : List (String × DataFrame) :=
  [("https://a.example/p1", { cols := ["id"], rows := [[some "1"]] }),
   ("https://b.example/p2", { cols := ["id"], rows := [[some "2"]] })]

/-- One-page ticket endpoint script for the upload-invariant witness. -/
def ticketScriptW : List Outcome :=
  [Outcome.response 200 { cols := ["custom_fields.req", "id"], rows := [[some "a", some "b"]] } none]

/-- One-page ticket-fields endpoint script for the upload-invariant witness. -/
def fieldScriptW : List Outcome :=
  [Outcome.response 200 { cols := ["name"], rows := [[some "f"]] } none]

/-- One-page groups endpoint script for the upload-invariant witness. -/
def groupScriptW : List Outcome :=
  [Outcome.response 200 { cols := ["gid"], rows := [[some "g"]] } none]

end FS

namespace FS

theorem isPrefixList_iff (p t : List Char) :
    isPrefixList p t = true ↔ ∃ w, t = p ++ w := by
  induction p generalizing t with
  | nil => simp [isPrefixList]
  | cons a as ih =>
    cases t with
    | nil => simp [isPrefixList]
    | cons b bs =>
      simp only [isPrefixList, Bool.and_eq_true, decide_eq_true_eq, ih]
      constructor
      · rintro ⟨rfl, w, rfl⟩; exact ⟨w, rfl⟩
      · rintro ⟨w, hw⟩
        injection hw with h1 h2
        exact ⟨h1.symm, w, h2⟩

theorem isPrefixList_append (p w : List Char) : isPrefixList p (p ++ w) = true :=
  (isPrefixList_iff p (p ++ w)).mpr ⟨w, rfl⟩

theorem containsSub_cons (pat : List Char) (b : Char) (bs : List Char) :
    containsSub pat (b :: bs) = (isPrefixList pat (b :: bs) || containsSub pat bs) := rfl

theorem containsSub_of_isPrefixList (pat t : List Char) (h : isPrefixList pat t = true) :
    containsSub pat t = true := by
  cases t with
  | nil =>
    cases pat with
    | nil => rfl
    | cons a as => simp [isPrefixList] at h
  | cons b bs => simp [containsSub_cons, h]

theorem containsSub_append_right (pat u t : List Char) (h : containsSub pat t = true) :
    containsSub pat (u ++ t) = true := by
  induction u with
  | nil => simpa using h
  | cons c cs ih => simp [containsSub_cons, ih]

theorem containsSub_sandwich (pat u w : List Char) :
    containsSub pat (u ++ (pat ++ w)) = true :=
  containsSub_append_right pat u (pat ++ w)
    (containsSub_of_isPrefixList pat (pat ++ w) (isPrefixList_append pat w))

theorem patCF_length : patCF.length = 14 := rfl

/-- The pattern `CUSTOM_FIELDS.` has no nontrivial border: no proper
suffix of it is also a prefix of it.  This is what rules out matches that
straddle the boundary between an occurrence and the text before it. -/
theorem patCF_borderFree :
    ∀ k, k < 14 → 1 ≤ k → isPrefixList (patCF.drop k) patCF = false := by decide

theorem removeGo_zero_nil : removeGo 0 [] = [] := rfl

theorem removeGo_zero_cons (c : Char) (cs : List Char) :
    removeGo 0 (c :: cs) =
      if isPrefixList patCF (c :: cs) then removeGo 13 cs
      else c :: removeGo 0 cs := rfl

theorem removeGo_skip (l z : List Char) : removeGo l.length (l ++ z) = removeGo 0 z := by
  induction l with
  | nil => rfl
  | cons c cs ih =>
    have hstep : removeGo (c :: cs).length ((c :: cs) ++ z) = removeGo cs.length (cs ++ z) := rfl
    rw [hstep, ih]

theorem removeCF_not_contains (t : List Char) (h : containsSub patCF t = false) :
    removeCF t = t := by
  induction t with
  | nil => rfl
  | cons c cs ih =>
    rw [containsSub_cons, Bool.or_eq_false_iff] at h
    rw [removeCF, removeGo_zero_cons, if_neg (by simp [h.1])]
    exact congrArg (c :: ·) (ih h.2)

theorem isPrefixList_sandwich_false (c : Char) (u w : List Char)
    (h : containsSub patCF (c :: u) = false) :
    isPrefixList patCF (c :: (u ++ (patCF ++ w))) = false := by
  by_contra hcon
  rw [Bool.not_eq_false, isPrefixList_iff] at hcon
  obtain ⟨z, hz⟩ := hcon
  rw [show c :: (u ++ (patCF ++ w)) = (c :: u) ++ (patCF ++ w) from rfl,
      List.append_eq_append_iff] at hz
  rcases hz with ⟨a', hpat, hrest⟩ | ⟨c', hcu, _⟩
  · have hm : (c :: u).length + a'.length = 14 := by
      rw [← patCF_length, hpat, List.length_append]
    rcases Nat.eq_zero_or_pos a'.length with ha0 | hapos
    · have ha : a' = [] := List.eq_nil_of_length_eq_zero ha0
      subst ha
      rw [List.append_nil] at hpat
      have hpre : isPrefixList patCF (c :: u) = true :=
        (isPrefixList_iff _ _).mpr ⟨[], by rw [List.append_nil, hpat]⟩
      rw [containsSub_cons, hpre, Bool.true_or] at h
      exact absurd h (by simp)
    · have hdrop : patCF.drop (c :: u).length = a' := by
        rw [hpat, List.drop_left]
      have hlt : (c :: u).length < 14 := by omega
      have hone : 1 ≤ (c :: u).length := by simp
      rw [List.append_eq_append_iff] at hrest
      rcases hrest with ⟨b', hb, _⟩ | ⟨d', hd, _⟩
      · have hlb : patCF.length + b'.length = a'.length := by
          rw [hb, List.length_append]
        rw [patCF_length] at hlb
        omega
      · have hpre : isPrefixList a' patCF = true :=
          (isPrefixList_iff _ _).mpr ⟨d', hd⟩
        rw [← hdrop] at hpre
        rw [patCF_borderFree (c :: u).length hlt hone] at hpre
        exact absurd hpre (by simp)
  · have hpre : isPrefixList patCF (c :: u) = true :=
      (isPrefixList_iff _ _).mpr ⟨c', hcu⟩
    rw [containsSub_cons, hpre, Bool.true_or] at h
    exact absurd h (by simp)

theorem removeCF_pat_head (w : List Char) : removeCF (patCF ++ w) = removeCF w := by
  have hif : removeCF (patCF ++ w) =
      (if isPrefixList patCF (patCF ++ w) = true then removeGo 13 (patCF.drop 1 ++ w)
       else 'C' :: removeGo 0 (patCF.drop 1 ++ w)) := rfl
  rw [hif, if_pos (isPrefixList_append patCF w)]
  exact removeGo_skip (patCF.drop 1) w

theorem removeCF_sandwich (u w : List Char) (h : containsSub patCF u = false) :
    removeCF (u ++ (patCF ++ w)) = u ++ removeCF w := by
  induction u with
  | nil => simpa using removeCF_pat_head w
  | cons c cs ih =>
    have h2 : containsSub patCF cs = false := by
      rw [containsSub_cons, Bool.or_eq_false_iff] at h
      exact h.2
    have hnp := isPrefixList_sandwich_false c cs w h
    rw [show (c :: cs) ++ (patCF ++ w) = c :: (cs ++ (patCF ++ w)) from rfl,
        removeCF, removeGo_zero_cons, if_neg (by simp [hnp])]
    exact congrArg (c :: ·) (ih h2)

theorem removeCF_sepJoin (segs : List (List Char))
    (h : ∀ s ∈ segs, containsSub patCF s = false) :
    removeCF (sepJoin patCF segs) = segs.flatten := by
  induction segs with
  | nil => rfl
  | cons s rest ih =>
    cases rest with
    | nil =>
      show removeCF s = s ++ []
      rw [List.append_nil]
      exact removeCF_not_contains s (h s (by simp))
    | cons s2 rest2 =>
      show removeCF (s ++ patCF ++ sepJoin patCF (s2 :: rest2)) = s ++ (s2 :: rest2).flatten
      rw [List.append_assoc,
          removeCF_sandwich s (sepJoin patCF (s2 :: rest2)) (h s (by simp)),
          ih (fun x hx => h x (by simp [hx]))]

theorem digit_ne_space (c : Char) (h : c.isDigit = true) : ¬(c = ' ') := fun he => by
  subst he
  exact absurd h (by decide)

theorem lookup_renameMap_none (cols : List String) (c : String)
    (h : containsSub patCF c.data = false) : List.lookup c (renameMap cols) = none := by
  induction cols with
  | nil => rfl
  | cons x xs ih =>
    rw [renameMap, List.filter_cons]
    by_cases hx : containsSub patCF x.data = true
    · rw [if_pos (by simpa using hx)]
      rw [List.map_cons, List.lookup_cons]
      have hne : (c == x) = false := beq_eq_false_iff_ne.mpr fun heq => by
        rw [heq] at h
        rw [h] at hx
        exact absurd hx (by simp)
      rw [hne]
      exact ih
    · rw [if_neg (by simpa using hx)]
      exact ih

theorem lookup_renameMap_some (cols : List String) (c : String) (hc : c ∈ cols)
    (h : containsSub patCF c.data = true) :
    List.lookup c (renameMap cols) = some (strRemoveCF c) := by
  induction cols with
  | nil => exact absurd hc (by simp)
  | cons x xs ih =>
    rw [renameMap, List.filter_cons]
    by_cases hcx : c = x
    · subst hcx
      rw [if_pos (by simpa using h), List.map_cons, List.lookup_cons, beq_self_eq_true]
    · have hc2 : c ∈ xs := by
        rcases List.mem_cons.mp hc with h1 | h2
        · exact absurd h1 hcx
        · exact h2
      by_cases hx : containsSub patCF x.data = true
      · rw [if_pos (by simpa using hx), List.map_cons, List.lookup_cons]
        rw [beq_eq_false_iff_ne.mpr hcx]
        exact ih hc2
      · rw [if_neg (by simpa using hx)]
        exact ih hc2

theorem applyRename_renameMap (cols : List String) (c : String) (hc : c ∈ cols) :
    applyRename (renameMap cols) c =
      if containsSub patCF c.data then strRemoveCF c else c := by
  by_cases h : containsSub patCF c.data = true
  · rw [applyRename, lookup_renameMap_some cols c hc h, if_pos h]
    rfl
  · rw [applyRename, lookup_renameMap_none cols c (by simpa using h), if_neg h]
    rfl

/-- C1: for every run in which the TICKETS table is empty — the aggregate is
null, so the SQL-side default of the `IFNULL` is used (surfacing through the
TIMESTAMP coercion and pandas rendering as `2001-04-16 00:00:00`) —
`get_updated_timestamp` returns exactly the string `2001-04-16T00:00:00Z`. -/
theorem claim1_empty_watermark_default :
    get_updated_timestamp none = "2001-04-16T00:00:00Z" := by decide

/-- C7: for every non-empty watermark query result of the form
`YYYY-MM-DD HH:MM:SS`, the string returned by `get_updated_timestamp` equals
the input with the space between date and time replaced by `T` and `Z`
appended. -/
theorem claim7_nonempty_watermark_format (ts : String) (h : isDateTimeForm ts = true) :
    get_updated_timestamp (some ts) = specISO ts := by
  obtain ⟨l⟩ := ts
  unfold isDateTimeForm at h
  split at h
  case h_2 => simp at h
  case h_1 y1 y2 y3 y4 h1 m1 m2 h2 d1 d2 sp t1 t2 c1 n1 n2 c2 s1 s2 heq =>
    simp only [Bool.and_eq_true, decide_eq_true_eq, and_assoc] at h
    obtain ⟨hy1, hy2, hy3, hy4, hh1, hm1, hm2, hh2, hd1, hd2, hsp, ht1, ht2, hc1, hn1,
      hn2, hc2, hs1, hs2⟩ := h
    subst hh1 hh2 hsp hc1 hc2
    simp only [String.data] at heq
    subst heq
    simp [get_updated_timestamp, specISO, snowflakeScalar, spaceToT,
      digit_ne_space _ hy1, digit_ne_space _ hy2, digit_ne_space _ hy3, digit_ne_space _ hy4,
      digit_ne_space _ hm1, digit_ne_space _ hm2, digit_ne_space _ hd1, digit_ne_space _ hd2,
      digit_ne_space _ ht1, digit_ne_space _ ht2, digit_ne_space _ hn1, digit_ne_space _ hn2,
      digit_ne_space _ hs1, digit_ne_space _ hs2]

/-- Witness for C7 at a concrete timestamp. -/
theorem claim7_witness :
    get_updated_timestamp (some "2023-08-25 01:23:45") = specISO "2023-08-25 01:23:45" :=
  claim7_nonempty_watermark_format "2023-08-25 01:23:45" (by decide)

/-- C6 (amended): the rename maps each column containing `CUSTOM_FIELDS.`
to that name with every left-to-right non-overlapping occurrence of the
substring removed, and leaves every other column unchanged; re-applying the
rename produces no further change provided no renamed column still contains
the substring.  (Unconditional idempotence fails: removal can splice a fresh
occurrence together, see the counterexample.) -/
theorem claim6_rename_amended (cols : List String) :
    (∀ c ∈ cols, applyRename (renameMap cols) c =
        if containsSub patCF c.data then strRemoveCF c else c) ∧
    ((∀ c ∈ renameOnce cols, containsSub patCF c.data = false) →
      renameOnce (renameOnce cols) = renameOnce cols) := by
  constructor
  · exact fun c hc => applyRename_renameMap cols c hc
  · intro hall
    conv => lhs; rw [renameOnce]
    have hfix : ∀ c ∈ renameOnce cols, applyRename (renameMap (renameOnce cols)) c = c := by
      intro c hcmem
      rw [applyRename_renameMap _ c hcmem, if_neg (by simp [hall c hcmem])]
    calc (renameOnce cols).map (applyRename (renameMap (renameOnce cols)))
        = (renameOnce cols).map id := List.map_congr_left hfix
      _ = renameOnce cols := List.map_id _

/-- Counterexample to C6 as stated: the rename is not idempotent.  Removing
the single occurrence of `CUSTOM_FIELDS.` in `CUSTOM_CUSTOM_FIELDS.FIELDS.X`
splices together a fresh occurrence, so a second application changes the
column again. -/
theorem claim6_counterexample :
    renameOnce (renameOnce ["CUSTOM_CUSTOM_FIELDS.FIELDS.X"]) ≠
      renameOnce ["CUSTOM_CUSTOM_FIELDS.FIELDS.X"] := by decide

/-- Witness for the amended C6 on a column set where the renamed columns are
pattern-free, so the second application is the identity. -/
theorem claim6_witness :
    renameOnce (renameOnce ["CUSTOM_FIELDS.A", "ID"]) = renameOnce ["CUSTOM_FIELDS.A", "ID"] :=
  (claim6_rename_amended ["CUSTOM_FIELDS.A", "ID"]).2 (by decide)

/-- C10: the rename removes every occurrence of `CUSTOM_FIELDS.` anywhere in
a column name, not only a leading prefix: a name built of pattern-free
segments joined by the pattern (at least one join, so the pattern occurs,
possibly far from the front) is mapped to the plain concatenation of the
segments. -/
theorem claim10_rename_all_occurrences (segs : List (List Char)) (cols : List String)
    (h2 : 2 ≤ segs.length) (hfree : ∀ s ∈ segs, containsSub patCF s = false)
    (hmem : String.mk (sepJoin patCF segs) ∈ cols) :
    applyRename (renameMap cols) (String.mk (sepJoin patCF segs)) =
      String.mk segs.flatten := by
  obtain ⟨s, rest, rfl⟩ : ∃ s rest, segs = s :: rest := by
    cases segs with
    | nil => simp at h2
    | cons s rest => exact ⟨s, rest, rfl⟩
  obtain ⟨s2, rest2, rfl⟩ : ∃ s2 rest2, rest = s2 :: rest2 := by
    cases rest with
    | nil => simp at h2
    | cons s2 rest2 => exact ⟨s2, rest2, rfl⟩
  rw [applyRename_renameMap cols _ hmem]
  have hcontains : containsSub patCF (String.mk (sepJoin patCF (s :: s2 :: rest2))).data = true := by
    show containsSub patCF (sepJoin patCF (s :: s2 :: rest2)) = true
    rw [show sepJoin patCF (s :: s2 :: rest2) = s ++ patCF ++ sepJoin patCF (s2 :: rest2) from rfl,
        List.append_assoc]
    exact containsSub_sandwich patCF s (sepJoin patCF (s2 :: rest2))
  rw [if_pos hcontains, strRemoveCF]
  exact congrArg String.mk (removeCF_sepJoin (s :: s2 :: rest2) hfree)

/-- Witness for C10: the non-leading occurrence in `A.CUSTOM_FIELDS.B` is
removed, yielding `A.B`. -/
theorem claim10_witness :
    applyRename (renameMap ["A.CUSTOM_FIELDS.B"]) (String.mk (sepJoin patCF ["A.".data, "B".data])) =
      String.mk (["A.".data, "B".data]).flatten :=
  claim10_rename_all_occurrences ["A.".data, "B".data] ["A.CUSTOM_FIELDS.B"]
    (by decide) (by decide) (by decide)

theorem uniqueAux_all_seen (seen : List String) (l : List String)
    (h : ∀ x ∈ l, x ∈ seen) : uniqueAux seen l = [] := by
  induction l with
  | nil => rfl
  | cons c cs ih =>
    rw [uniqueAux, if_pos (List.elem_iff.mpr (h c (by simp)))]
    exact ih fun x hx => h x (by simp [hx])

theorem uniqueAux_append (C : List String) (seen r : List String)
    (hnd : C.Nodup) (hseen : ∀ c ∈ C, c ∉ seen)
    (hr : ∀ x ∈ r, x ∈ C ∨ x ∈ seen) : uniqueAux seen (C ++ r) = C := by
  induction C generalizing seen r with
  | nil =>
    simp only [List.nil_append]
    exact uniqueAux_all_seen seen r fun x hx => (hr x hx).elim (fun h => absurd h (by simp)) id
  | cons c cs ih =>
    rw [List.cons_append, uniqueAux,
        if_neg (by simp [List.elem_iff]; exact hseen c (by simp))]
    have := ih (c :: seen) r
      (List.nodup_cons.mp hnd).2
      (fun x hx => by
        simp only [List.mem_cons]
        push_neg
        exact ⟨fun hxc => (List.nodup_cons.mp hnd).1 (hxc ▸ hx), hseen x (by simp [hx])⟩)
      (fun x hx => by
        rcases hr x hx with h1 | h2
        · rcases List.mem_cons.mp h1 with h3 | h4
          · exact Or.inr (by simp [h3])
          · exact Or.inl h4
        · exact Or.inr (by simp [h2]))
    rw [this]

theorem idxOf_nodup (C : List String) (hnd : C.Nodup) (i : Nat) (hi : i < C.length) :
    idxOf C[i] C = some i := by
  induction C generalizing i with
  | nil => simp at hi
  | cons x xs ih =>
    cases i with
    | zero => simp [idxOf]
    | succ j =>
      have hj : j < xs.length := by simpa using hi
      have hxmem : xs[j] ∈ xs := List.getElem_mem hj
      have hne : ¬(x = xs[j]) := fun he => (List.nodup_cons.mp hnd).1 (he ▸ hxmem)
      show idxOf (x :: xs)[j + 1] (x :: xs) = some (j + 1)
      rw [List.getElem_cons_succ, idxOf, if_neg hne, ih (List.nodup_cons.mp hnd).2 j hj]
      rfl

theorem reindexRow_self (C : List String) (row : List Cell) (hnd : C.Nodup)
    (hlen : row.length = C.length) : reindexRow C C row = row := by
  apply List.ext_getElem
  · simp [reindexRow, hlen]
  · intro i h1 h2
    simp only [reindexRow, List.getElem_map]
    rw [idxOf_nodup C hnd i (by simpa [reindexRow] using h1)]
    exact List.getD_eq_getElem row none h2

theorem concat_same (dfs : List DataFrame) (C : List String) (hne : dfs ≠ [])
    (hcols : ∀ df ∈ dfs, df.cols = C) (hnd : C.Nodup)
    (hrows : ∀ df ∈ dfs, ∀ r ∈ df.rows, r.length = C.length) :
    concatDfs dfs = ⟨C, (dfs.map DataFrame.rows).flatten⟩ := by
  obtain ⟨d, rest, rfl⟩ : ∃ d rest, dfs = d :: rest := by
    cases dfs with
    | nil => exact absurd rfl hne
    | cons d rest => exact ⟨d, rest, rfl⟩
  have hcolsU : uniqueAux [] ((d :: rest).map DataFrame.cols).flatten = C := by
    rw [List.map_cons, List.flatten_cons, hcols d (by simp)]
    exact uniqueAux_append C [] _ hnd (by simp)
      (fun x hx => Or.inl (by
        obtain ⟨l, hl, hxl⟩ := List.mem_flatten.mp hx
        obtain ⟨df, hdf, rfl⟩ := List.mem_map.mp hl
        rw [hcols df (by simp [hdf])] at hxl
        exact hxl))
  rw [concatDfs, hcolsU]
  congr 1
  have hmap : ∀ df ∈ d :: rest, df.rows.map (reindexRow C df.cols) = df.rows := by
    intro df hdf
    rw [hcols df hdf]
    calc df.rows.map (reindexRow C C)
        = df.rows.map id := List.map_congr_left fun r hr =>
            reindexRow_self C r hnd (hrows df hdf r hr)
      _ = df.rows := List.map_id _
  exact congrArg List.flatten (List.map_congr_left hmap)

theorem scanClose_append (l rest : List Char)
    (h : ∀ ch ∈ l, ch ≠ '>' ∧ ch ≠ '\n') : scanClose (l ++ '>' :: rest) = some l := by
  induction l with
  | nil => rfl
  | cons c cs ih =>
    have hc := h c (by simp)
    rw [List.cons_append, scanClose, if_neg hc.1, if_neg hc.2,
        ih fun x hx => h x (by simp [hx])]
    rfl

theorem firstAngle_skip (p l : List Char) (hp : ∀ ch ∈ p, ch ≠ '<') :
    firstAngle (p ++ l) = firstAngle l := by
  induction p with
  | nil => rfl
  | cons c cs ih =>
    rw [List.cons_append, firstAngle, if_neg (hp c (by simp))]
    exact ih fun x hx => hp x (by simp [hx])

theorem firstAngle_found (u attrs : List Char)
    (hu : ∀ ch ∈ u, ch ≠ '>' ∧ ch ≠ '\n') :
    firstAngle ('<' :: (u ++ '>' :: attrs)) = some u := by
  rw [firstAngle, if_pos rfl, scanClose_append u attrs hu]

theorem goodUrl_spec (u : String) (h : goodUrl u = true) :
    ∀ ch ∈ u.data, ch ≠ '>' ∧ ch ≠ '\n' := by
  rw [goodUrl, Bool.and_eq_true] at h
  intro ch hch
  have := List.all_eq_true.mp h.2 ch hch
  simp only [Bool.and_eq_true, decide_eq_true_eq] at this
  exact this

theorem goodUrl_ne (u : String) (h : goodUrl u = true) : u ≠ "" := by
  rw [goodUrl, Bool.and_eq_true] at h
  simpa using h.1

theorem linkNext_bracket (p u attrs : String) (hp : ∀ ch ∈ p.data, ch ≠ '<')
    (hu : goodUrl u = true) :
    linkNext (some (p ++ "<" ++ u ++ ">" ++ attrs)) = some u := by
  rw [linkNext]
  have hdata : (p ++ "<" ++ u ++ ">" ++ attrs).data
      = p.data ++ ('<' :: (u.data ++ ('>' :: attrs.data))) := by
    simp
  rw [hdata, firstAngle_skip p.data _ hp, firstAngle_found u.data attrs.data (goodUrl_spec u hu)]
  rfl

theorem linkNext_plain (u : String) (hu : goodUrl u = true) :
    linkNext (some ("<" ++ u ++ ">")) = some u := by
  have h := linkNext_bracket "" u "" (by simp) hu
  simpa using h

theorem fetchLoop_none (script : List Outcome) (lastSt : Option Nat)
    (acc : List DataFrame) (reqs : List String) :
    fetchLoop script none lastSt acc reqs = .ok (reqs, acc) := by
  cases script with
  | nil => rfl
  | cons o rest => cases o <;> cases lastSt <;> rfl

theorem fetchLoop_empty_url (script : List Outcome) (lastSt : Option Nat)
    (acc : List DataFrame) (reqs : List String) :
    fetchLoop script (some "") lastSt acc reqs = .ok (reqs, acc) := by
  cases script with
  | nil => rfl
  | cons o rest => cases o <;> cases lastSt <;> simp [fetchLoop]

theorem fetchLoop_success (rest : List Outcome) (u : String) (df : DataFrame)
    (link : Option String) (lastSt : Option Nat) (acc : List DataFrame) (reqs : List String)
    (hu : u ≠ "") :
    fetchLoop (Outcome.response 200 df link :: rest) (some u) lastSt acc reqs =
      fetchLoop rest (linkNext link) (some 200) (acc ++ [df]) (reqs ++ [u]) := by
  simp only [fetchLoop]
  rw [if_neg hu, if_neg (by omega : ¬((400 : Nat) ≤ 200))]

theorem fetchLoop_429 (rest : List Outcome) (u : String) (df : DataFrame)
    (link : Option String) (lastSt : Option Nat) (acc : List DataFrame) (reqs : List String)
    (hu : u ≠ "") :
    fetchLoop (Outcome.response 429 df link :: rest) (some u) lastSt acc reqs =
      .error .nameError := by
  simp only [fetchLoop]
  rw [if_neg hu, if_pos (by omega : (400 : Nat) ≤ 429)]
  simp

theorem fetchLoop_connError_first (rest : List Outcome) (u : String)
    (acc : List DataFrame) (reqs : List String) (hu : u ≠ "") :
    fetchLoop (Outcome.connError :: rest) (some u) none acc reqs = .error .unboundLocal := by
  simp only [fetchLoop]
  rw [if_neg hu]

theorem fetchLoop_chainScript (ps : List (String × DataFrame)) (u : String) (df : DataFrame)
    (lastSt : Option Nat) (acc : List DataFrame) (reqs : List String)
    (hu : goodUrl u = true) (hgood : ∀ p ∈ ps, goodUrl p.1 = true) :
    fetchLoop (chainScript ((u, df) :: ps)) (some u) lastSt acc reqs =
      .ok (reqs ++ ((u, df) :: ps).map Prod.fst, acc ++ ((u, df) :: ps).map Prod.snd) := by
  induction ps generalizing u df lastSt acc reqs with
  | nil =>
    rw [show chainScript [(u, df)] = [Outcome.response 200 df none] from rfl,
        fetchLoop_success _ _ _ _ _ _ _ (goodUrl_ne u hu),
        show linkNext none = none from rfl, fetchLoop_none]
    simp
  | cons p2 rest ih =>
    obtain ⟨u2, df2⟩ := p2
    rw [show chainScript ((u, df) :: (u2, df2) :: rest)
        = Outcome.response 200 df (some ("<" ++ u2 ++ ">")) :: chainScript ((u2, df2) :: rest)
        from rfl,
        fetchLoop_success _ _ _ _ _ _ _ (goodUrl_ne u hu),
        linkNext_plain u2 (hgood (u2, df2) (by simp)),
        ih u2 df2 (some 200) (acc ++ [df]) (reqs ++ [u]) (hgood (u2, df2) (by simp))
          (fun p hp => hgood p (by simp [hp]))]
    simp

/-- C2: for every nonempty chain of pages, each page carrying a `Link`
header to the next page except the last, the fetcher requests each page
exactly once and in order, stops after the last page, and returns the
concatenation of all page rows (every output row comes from exactly one
record of exactly one page), with N pages of K records each giving N*K
rows. -/
theorem claim2_pagination (ps : List (String × DataFrame)) (K : Nat) (C : List String)
    (hne : ps ≠ [])
    (hgood : ∀ p ∈ ps, goodUrl p.1 = true)
    (hcols : ∀ p ∈ ps, (p.2).cols = C) (hnd : C.Nodup)
    (hrowlen : ∀ p ∈ ps, ∀ r ∈ (p.2).rows, r.length = C.length)
    (hK : ∀ p ∈ ps, (p.2).rows.length = K) :
    fetchRun (chainScript ps) (startOf ps "") =
      .ok (ps.map Prod.fst, uppercaseCols (concatDfs (ps.map Prod.snd))) ∧
    (uppercaseCols (concatDfs (ps.map Prod.snd))).rows = (ps.map fun p => (p.2).rows).flatten ∧
    (uppercaseCols (concatDfs (ps.map Prod.snd))).rows.length = ps.length * K := by
  have hconc : concatDfs (ps.map Prod.snd) =
      ⟨C, ((ps.map Prod.snd).map DataFrame.rows).flatten⟩ := by
    apply concat_same
    · simp [hne]
    · intro df hdf
      obtain ⟨p, hp, rfl⟩ := List.mem_map.mp hdf
      exact hcols p hp
    · exact hnd
    · intro df hdf r hr
      obtain ⟨p, hp, rfl⟩ := List.mem_map.mp hdf
      exact hrowlen p hp r hr
  have hrows : (uppercaseCols (concatDfs (ps.map Prod.snd))).rows
      = (ps.map fun p => (p.2).rows).flatten := by
    rw [hconc]
    simp [uppercaseCols, List.map_map]
    rfl
  refine ⟨?_, hrows, ?_⟩
  · obtain ⟨⟨u, df⟩, rest, rfl⟩ : ∃ p rest, ps = p :: rest := by
      cases ps with
      | nil => exact absurd rfl hne
      | cons p rest => exact ⟨p, rest, rfl⟩
    rw [show startOf ((u, df) :: rest) "" = u from rfl, fetchRun,
        fetchLoop_chainScript rest u df none [] [] (hgood (u, df) (by simp))
          (fun p hp => hgood p (by simp [hp]))]
    simp
  · rw [hrows, List.length_flatten, List.map_map]
    have hrep : ps.map (List.length ∘ fun p => (p.2).rows) = List.replicate ps.length K :=
      List.eq_replicate_iff.mpr ⟨by simp, by
        intro b hb
        obtain ⟨p, hp, rfl⟩ := List.mem_map.mp hb
        exact hK p hp⟩
    rw [hrep, List.sum_replicate, smul_eq_mul]

/-- C3 (code bug): a 429 response does not lead to a sleep-and-retry —
`main.py` never imports `time`, so the handler's `time.sleep(60)` on line
124 raises `NameError`, which `except requests.RequestException` does not
catch; the fetch crashes instead of retrying and succeeding. -/
theorem claim3_rate_limit_crash :
    fetchRun [Outcome.response 429 ⟨[], []⟩ none,
              Outcome.response 200 ⟨["id"], [[some "1"]]⟩ none] "https://d/api/v2/tickets" =
      .error PyError.nameError := rfl

/-- C9: after a successful page, the URL selected for the next request is
exactly the first angle-bracket-enclosed substring of the `Link` header —
regardless of any accompanying attributes such as a `rel` part, and
regardless of text before the brackets — and, when that substring is a
non-empty URL, the next request goes exactly there.  Pagination terminates
without a further request when the header is absent, when it contains no
bracketed group the regex can match, and also when the first bracketed group
is empty (`<>`): the selected empty URL is falsy, so `while url:` exits. -/
theorem claim9_link_selection (p u attrs attrs2 h2 : String) (df df2 : DataFrame)
    (start : String) (hstart : start ≠ "")
    (hp : ∀ ch ∈ p.data, ch ≠ '<') (hu : goodUrl u = true)
    (hnone : firstAngle h2.data = none) :
    (fetchRun [Outcome.response 200 df (some (p ++ "<" ++ u ++ ">" ++ attrs)),
               Outcome.response 200 df2 none] start =
      .ok ([start, u], uppercaseCols (concatDfs [df, df2]))) ∧
    (fetchRun [Outcome.response 200 df (some ("<>" ++ attrs2)),
               Outcome.response 200 df2 none] start =
      .ok ([start], uppercaseCols (concatDfs [df]))) ∧
    (fetchRun [Outcome.response 200 df (some h2)] start =
      .ok ([start], uppercaseCols (concatDfs [df]))) ∧
    (fetchRun [Outcome.response 200 df none] start =
      .ok ([start], uppercaseCols (concatDfs [df]))) := by
  refine ⟨?_, ?_, ?_, ?_⟩
  · rw [fetchRun, fetchLoop_success _ _ _ _ _ _ _ hstart, linkNext_bracket p u attrs hp hu,
        fetchLoop_success _ _ _ _ _ _ _ (goodUrl_ne u hu),
        show linkNext none = none from rfl, fetchLoop_none]
    simp
  · rw [fetchRun, fetchLoop_success _ _ _ _ _ _ _ hstart,
        show linkNext (some ("<>" ++ attrs2)) = some "" from rfl,
        fetchLoop_empty_url]
    simp
  · rw [fetchRun, fetchLoop_success _ _ _ _ _ _ _ hstart,
        show linkNext (some h2) = none from by rw [linkNext, hnone]; rfl, fetchLoop_none]
    simp
  · rw [fetchRun, fetchLoop_success _ _ _ _ _ _ _ hstart,
        show linkNext none = none from rfl, fetchLoop_none]
    simp

/-- Witness for C9: a realistic header with a `rel` attribute yields the
bracketed URL as the next request; an empty bracketed group and a
bracket-free header both end pagination after the current page. -/
theorem claim9_witness :
    (fetchRun [Outcome.response 200 ⟨["id"], [[some "1"]]⟩
                 (some ("<https://x.freshservice.com/api/v2/tickets?page=2>; rel=\x22next\x22")),
               Outcome.response 200 ⟨["id"], [[some "2"]]⟩ none] "https://x/start" =
      .ok (["https://x/start", "https://x.freshservice.com/api/v2/tickets?page=2"],
        uppercaseCols (concatDfs [⟨["id"], [[some "1"]]⟩, ⟨["id"], [[some "2"]]⟩]))) ∧
    (fetchRun [Outcome.response 200 ⟨["id"], [[some "1"]]⟩ (some ("<>" ++ "; rel=\x22next\x22")),
               Outcome.response 200 ⟨["id"], [[some "2"]]⟩ none] "https://x/start" =
      .ok (["https://x/start"], uppercaseCols (concatDfs [⟨["id"], [[some "1"]]⟩]))) ∧
    (fetchRun [Outcome.response 200 ⟨["id"], [[some "1"]]⟩ (some "no brackets")] "https://x/start" =
      .ok (["https://x/start"], uppercaseCols (concatDfs [⟨["id"], [[some "1"]]⟩]))) ∧
    (fetchRun [Outcome.response 200 ⟨["id"], [[some "1"]]⟩ none] "https://x/start" =
      .ok (["https://x/start"], uppercaseCols (concatDfs [⟨["id"], [[some "1"]]⟩]))) :=
  claim9_link_selection "" "https://x.freshservice.com/api/v2/tickets?page=2"
    ("; rel=\x22next\x22") ("; rel=\x22next\x22") "no brackets"
    ⟨["id"], [[some "1"]]⟩ ⟨["id"], [[some "2"]]⟩
    "https://x/start" (by decide) (by decide) (by decide) (by decide)

/-- C4: the `except` clause of `main` swallows (after logging) exactly the
exceptions whose message contains the Snowflake marker
`SQL compilation error:`, ending the run cleanly with no further uploads,
and re-raises every other exception, terminating the process with the
runtime's failure status; with no exception the run is clean. -/
theorem claim4_main_error_classification (msg : String) :
    (containsSub sqlErrPat msg.data = true → mainExceptHandler (some msg) = .soft msg) ∧
    (containsSub sqlErrPat msg.data = false → mainExceptHandler (some msg) = .raised msg) ∧
    mainExceptHandler none = .clean := by
  refine ⟨fun h => ?_, fun h => ?_, rfl⟩
  · rw [mainExceptHandler, if_pos h]
  · rw [mainExceptHandler, if_neg (by simp [h])]

/-- Witness for C4: one swallowed Snowflake message, one re-raised one. -/
theorem claim4_witness :
    mainExceptHandler (some "000904: SQL compilation error: invalid identifier") =
      .soft "000904: SQL compilation error: invalid identifier" ∧
    mainExceptHandler (some "Connection aborted") = .raised "Connection aborted" :=
  ⟨(claim4_main_error_classification "000904: SQL compilation error: invalid identifier").1
      (by decide),
   (claim4_main_error_classification "Connection aborted").2.1 (by decide)⟩

theorem toNat_ofNat_valid (n : Nat) (h : n.isValidChar) : (Char.ofNat n).toNat = n := by
  rw [Char.ofNat, dif_pos h]
  rfl

theorem toUpper_toUpper (c : Char) : Char.toUpper (Char.toUpper c) = Char.toUpper c := by
  by_cases h : c.toNat ≥ 97 ∧ c.toNat ≤ 122
  · rw [show Char.toUpper c = Char.ofNat (c.toNat - 32) from by
        rw [Char.toUpper, if_pos h]]
    have hv : (c.toNat - 32).isValidChar := Or.inl (by omega)
    have ht : (Char.ofNat (c.toNat - 32)).toNat = c.toNat - 32 := toNat_ofNat_valid _ hv
    rw [Char.toUpper, if_neg (by rw [ht]; omega)]
  · rw [show Char.toUpper c = c from by rw [Char.toUpper, if_neg h],
        show Char.toUpper c = c from by rw [Char.toUpper, if_neg h]]

theorem strUpper_idem (s : String) : strUpper (strUpper s) = strUpper s := by
  simp [strUpper, List.map_map, Function.comp_def, toUpper_toUpper]

theorem removeGo_sublist (k : Nat) (l : List Char) : List.Sublist (removeGo k l) l := by
  induction l generalizing k with
  | nil => cases k <;> exact List.Sublist.refl _
  | cons c cs ih =>
    cases k with
    | succ j => exact List.Sublist.cons c (ih j)
    | zero =>
      rw [removeGo_zero_cons]
      by_cases hp : isPrefixList patCF (c :: cs) = true
      · rw [if_pos hp]
        exact List.Sublist.cons c (ih 13)
      · rw [if_neg hp]
        exact List.Sublist.cons₂ c (ih 0)

theorem map_fixed_of_map_eq (f : Char → Char) (l : List Char) (h : l.map f = l) :
    ∀ c ∈ l, f c = c := by
  induction l with
  | nil =>
    intro c hc
    simp at hc
  | cons x xs ih =>
    rw [List.map_cons] at h
    injection h with h1 h2
    intro c hc
    rcases List.mem_cons.mp hc with rfl | hc2
    · exact h1
    · exact ih h2 c hc2

theorem strUpper_fixed_iff (s : String) :
    strUpper s = s ↔ ∀ c ∈ s.data, Char.toUpper c = c := by
  constructor
  · intro h
    have hdata : s.data.map Char.toUpper = s.data := by
      have h2 := congrArg String.data h
      simpa [strUpper] using h2
    exact map_fixed_of_map_eq _ _ hdata
  · intro h
    rw [strUpper, (List.map_congr_left h).trans (List.map_id _)]

theorem strRemoveCF_upper_fixed (c : String) (h : strUpper c = c) :
    strUpper (strRemoveCF c) = strRemoveCF c := by
  rw [strUpper_fixed_iff] at h ⊢
  intro ch hch
  exact h ch ((removeGo_sublist 0 c.data).subset hch)

theorem fetchRun_upper_fixed (script : List Outcome) (start : String)
    (reqs : List String) (df : DataFrame)
    (h : fetchRun script start = .ok (reqs, df)) : ∀ c ∈ df.cols, strUpper c = c := by
  rw [fetchRun] at h
  cases heq : fetchLoop script (some start) none [] [] with
  | error e =>
    rw [heq] at h
    exact absurd h (by simp)
  | ok pr =>
    obtain ⟨r, dfs⟩ := pr
    rw [heq] at h
    simp only [Except.ok.injEq, Prod.mk.injEq] at h
    obtain ⟨-, hdf⟩ := h
    subst hdf
    intro c hc
    simp only [uppercaseCols] at hc
    obtain ⟨c0, -, rfl⟩ := List.mem_map.mp hc
    exact strUpper_idem c0

theorem fetch_ep_upper_fixed (script : List Outcome) (domain ep : String) (df : DataFrame)
    (h : fetch_data_from_endpoint script domain ep = .ok df) :
    ∀ c ∈ df.cols, strUpper c = c := by
  rw [fetch_data_from_endpoint] at h
  cases heq : fetchRun script (endpointUrl domain ep) with
  | error e =>
    rw [heq] at h
    exact absurd h (by simp [Except.map])
  | ok pr =>
    obtain ⟨r, d⟩ := pr
    rw [heq] at h
    simp only [Except.map, Except.ok.injEq] at h
    subst h
    exact fetchRun_upper_fixed script _ r d heq

theorem renameOnce_upper_fixed (cols : List String)
    (hup : ∀ c ∈ cols, strUpper c = c) : ∀ c ∈ renameOnce cols, strUpper c = c := by
  intro c hc
  obtain ⟨c0, hc0, rfl⟩ := List.mem_map.mp hc
  rw [applyRename_renameMap cols c0 hc0]
  by_cases hcf : containsSub patCF c0.data = true
  · rw [if_pos hcf]
    exact strRemoveCF_upper_fixed c0 (hup c0 hc0)
  · rw [if_neg hcf]
    exact hup c0 hc0

/-- C8: every table `main` hands to `upload_df_to_blob` has only
uppercase-fixed column names at the moment of upload: the fetcher uppercases
all column names, and the ticket de-prefixing rename (which removes
`CUSTOM_FIELDS.` occurrences, keeping a subset of the characters) preserves
that property.  This covers all three uploaded tables. -/
theorem claim8_upload_columns_uppercase (domain : String) (agg : Option String)
    (tS fS gS : List Outcome) (ups : List (String × DataFrame))
    (h : mainUploads domain agg tS fS gS = .ok ups) :
    ∀ x ∈ ups, ∀ c ∈ x.2.cols, strUpper c = c := by
  rw [mainUploads] at h
  cases ht : fetch_data_from_endpoint tS domain
      ("tickets?per_page=100&updated_since=" ++ get_updated_timestamp agg) with
  | error e =>
    rw [ht] at h
    exact absurd h (by simp)
  | ok ticket_df =>
    rw [ht] at h
    cases hf : fetch_data_from_endpoint fS domain "ticket_form_fields?per_page=100" with
    | error e =>
      rw [hf] at h
      exact absurd h (by simp)
    | ok fields_df =>
      rw [hf] at h
      cases hg : fetch_data_from_endpoint gS domain "groups?per_page=100" with
      | error e =>
        rw [hg] at h
        exact absurd h (by simp)
      | ok groups_df =>
        rw [hg] at h
        simp only [Except.ok.injEq] at h
        subst h
        intro x hx c hc
        rcases List.mem_cons.mp hx with rfl | hx2
        · exact fetch_ep_upper_fixed gS domain "groups?per_page=100" groups_df hg c hc
        rcases List.mem_cons.mp hx2 with rfl | hx3
        · have hup := fetch_ep_upper_fixed tS domain
            ("tickets?per_page=100&updated_since=" ++ get_updated_timestamp agg) ticket_df ht
          exact renameOnce_upper_fixed ticket_df.cols hup c hc
        rcases List.mem_cons.mp hx3 with rfl | hx4
        · exact fetch_ep_upper_fixed fS domain "ticket_form_fields?per_page=100" fields_df hf c hc
        · simp at hx4

/-- Witness for C2 at a concrete two-page chain with one record per page. -/
theorem claim2_witness :
    fetchRun (chainScript twoPages) (startOf twoPages "") =
      .ok (twoPages.map Prod.fst, uppercaseCols (concatDfs (twoPages.map Prod.snd))) ∧
    (uppercaseCols (concatDfs (twoPages.map Prod.snd))).rows
      = (twoPages.map fun p => (p.2).rows).flatten ∧
    (uppercaseCols (concatDfs (twoPages.map Prod.snd))).rows.length = twoPages.length * 1 :=
  claim2_pagination twoPages 1 ["id"] (by decide) (by decide) (by decide) (by decide)
    (by decide) (by decide)

/-- Witness for C8: in a concrete full run, the uploaded renamed ticket
column obtained from `custom_fields.req` is uppercase-fixed. -/
theorem claim8_witness : strUpper "REQ" = "REQ" :=
  claim8_upload_columns_uppercase "d" none ticketScriptW fieldScriptW groupScriptW
    [(agentGroupsPath, { cols := ["GID"], rows := [[some "g"]] }),
     (ticketsPath, { cols := ["REQ", "ID"], rows := [[some "a", some "b"]] }),
     (ticketFieldsPath, { cols := ["NAME"], rows := [[some "f"]] })]
    rfl
    (ticketsPath, { cols := ["REQ", "ID"], rows := [[some "a", some "b"]] }) (by decide)
    "REQ" (by decide)

end FS
